import Mathlib

/-!
Shallow embedding of the scikit-criteria numeric core.

Source of truth: src/skcriteria/norm.py (the five normalization operators) and,
for the validators `criteriarr` and `is_mtx` whose defining module is not part
of src/ (only their tests are), definitions modelled from the specification.

Modelling conventions:
- A 2-D numpy array of shape (m, n) is a total function `Fin m → Fin n → ℚ`
  (exact arithmetic stands in for float64; `vector` maps into `ℝ` because it
  divides by a square root).  Operators whose reductions need a non-empty
  array are stated over `Fin (m+1) → Fin (n+1) → ℚ`.
- `np.sum(arr, axis=a, keepdims=True)` followed by an arithmetic operation
  broadcasts the kept axis exactly back over the original shape, so the
  keepdims-using operators (`sum`, `max`, `push_negatives`) are written with
  the per-slice statistic applied to its own slice.
- `vector` and `add1to0` do NOT use keepdims: they combine the (m, n) array
  with a 1-D statistic array of some length k by numpy broadcasting, which
  aligns the 1-D array with the LAST axis: it is defined iff k = n or k = 1,
  and pairs entry (i, j) with statistic j.  `broadcastOp` embeds this rule;
  `Option.none` models the ValueError numpy raises when shapes mismatch.
- numpy dtype flow relevant to the claims is carried explicitly by `DType`:
  `np.asarray(x, dtype=float)` produces float, `np.zeros` produces float,
  int array + python int scalar stays int, anything + float array is float.
-/

/-- Axis argument of the numpy reductions: `Axis.none` is `axis=None` (reduce
over the flattened array), `Axis.axis0` is `axis=0` (one statistic per
column), `Axis.axis1` is `axis=1` (one statistic per row). -/
inductive Axis
  | none
  | axis0
  | axis1
deriving DecidableEq

/-- numpy dtypes that occur in the embedded code paths. -/
inductive DType
  | int
  | float
deriving DecidableEq

/-- numpy broadcasting of a 1-D array `v` of length `k` against a 2-D array
`M` of shape (m, n) under a binary operation `f`: legal iff `k = n` (entry
(i, j) pairs with `v j`) or `k = 1` (the single entry is stretched); any
other `k` raises, modelled as `Option.none`. -/
def broadcastOp {α : Type} {m n k : ℕ} (f : α → α → α)
    (M : Fin m → Fin n → α) (v : Fin k → α) : Option (Fin m → Fin n → α) :=
  if h : k = n then
    some (fun i j => f (M i j) (v (Fin.cast h.symm j)))
  else if h1 : k = 1 then
    some (fun i j => f (M i j) (v (Fin.cast h1.symm 0)))
  else
    Option.none

namespace norm

/-- Sum of every entry: `np.sum(arr)` with `axis=None`. -/
def totSum {m n : ℕ} (M : Fin m → Fin n → ℚ) : ℚ := ∑ i, ∑ j, M i j

/-- Column sums: `np.sum(arr, axis=0)`. -/
def colSum {m n : ℕ} (M : Fin m → Fin n → ℚ) (j : Fin n) : ℚ := ∑ i, M i j

/-- Row sums: `np.sum(arr, axis=1)`. -/
def rowSum {m n : ℕ} (M : Fin m → Fin n → ℚ) (i : Fin m) : ℚ := ∑ j, M i j

/-- Greatest entry of the whole (non-empty) array: `np.max(arr)`. -/
def totMax {m n : ℕ} (M : Fin (m+1) → Fin (n+1) → ℚ) : ℚ :=
  Finset.univ.sup' Finset.univ_nonempty
    (fun i => Finset.univ.sup' Finset.univ_nonempty (fun j => M i j))

/-- Column maxima: `np.max(arr, axis=0)`. -/
def colMax {m n : ℕ} (M : Fin (m+1) → Fin (n+1) → ℚ) (j : Fin (n+1)) : ℚ :=
  Finset.univ.sup' Finset.univ_nonempty (fun i => M i j)

/-- Row maxima: `np.max(arr, axis=1)`. -/
def rowMax {m n : ℕ} (M : Fin (m+1) → Fin (n+1) → ℚ) (i : Fin (m+1)) : ℚ :=
  Finset.univ.sup' Finset.univ_nonempty (fun j => M i j)

/-- Least entry of the whole (non-empty) array: `np.min(arr)`. -/
def totMin {m n : ℕ} (M : Fin (m+1) → Fin (n+1) → ℚ) : ℚ :=
  Finset.univ.inf' Finset.univ_nonempty
    (fun i => Finset.univ.inf' Finset.univ_nonempty (fun j => M i j))

/-- Column minima: `np.min(arr, axis=0)`. -/
def colMin {m n : ℕ} (M : Fin (m+1) → Fin (n+1) → ℚ) (j : Fin (n+1)) : ℚ :=
  Finset.univ.inf' Finset.univ_nonempty (fun i => M i j)

/-- Row minima: `np.min(arr, axis=1)`. -/
def rowMin {m n : ℕ} (M : Fin (m+1) → Fin (n+1) → ℚ) (i : Fin (m+1)) : ℚ :=
  Finset.univ.inf' Finset.univ_nonempty (fun j => M i j)

/-- norm.sum: `arr = np.asarray(arr, dtype=float); sumval = np.sum(arr, axis,
keepdims=True); return arr / sumval`.  keepdims makes the division divide
every entry by the sum of its own slice. -/
def sum {m n : ℕ} (M : Fin (m+1) → Fin (n+1) → ℚ) : Axis → Fin (m+1) → Fin (n+1) → ℚ
  | Axis.none => fun i j => M i j / totSum M
  | Axis.axis0 => fun i j => M i j / colSum M j
  | Axis.axis1 => fun i j => M i j / rowSum M i

/-- norm.max: `arr = np.asarray(arr, dtype=float); maxval = np.max(arr, axis,
keepdims=True); return arr / maxval`. -/
def max {m n : ℕ} (M : Fin (m+1) → Fin (n+1) → ℚ) : Axis → Fin (m+1) → Fin (n+1) → ℚ
  | Axis.none => fun i j => M i j / totMax M
  | Axis.axis0 => fun i j => M i j / colMax M j
  | Axis.axis1 => fun i j => M i j / rowMax M i

/-- norm.push_negatives: `arr = np.asarray(arr); mins = np.min(arr, axis,
keepdims=True); delta = (mins < 0) * mins; return arr - delta`.  The boolean
factor `(mins < 0)` is 1 where the slice minimum is negative and 0
elsewhere.  No dtype coercion happens on this path. -/
def push_negatives {m n : ℕ} (M : Fin (m+1) → Fin (n+1) → ℚ) :
    Axis → Fin (m+1) → Fin (n+1) → ℚ
  | Axis.none => fun i j => M i j - (if totMin M < 0 then (1 : ℚ) else 0) * totMin M
  | Axis.axis0 => fun i j => M i j - (if colMin M j < 0 then (1 : ℚ) else 0) * colMin M j
  | Axis.axis1 => fun i j => M i j - (if rowMin M i < 0 then (1 : ℚ) else 0) * rowMin M i

/-- norm.vector: `arr = np.asarray(arr, dtype=float); frob = linalg.norm(arr,
None, axis=axis); return arr / frob`.  With `axis=None` the norm is the
Frobenius norm of the flattened array (a scalar); with `axis=0` / `axis=1`
it is the 1-D array of column / row Euclidean norms, and the division
broadcasts it WITHOUT keepdims, i.e. against the last axis
(`broadcastOp`). -/
noncomputable def vector {m n : ℕ} (M : Fin (m+1) → Fin (n+1) → ℚ) (a : Axis) :
    Option (Fin (m+1) → Fin (n+1) → ℝ) :=
  let A : Fin (m+1) → Fin (n+1) → ℝ := fun i j => (M i j : ℝ)
  match a with
  | Axis.none => some (fun i j => A i j / Real.sqrt (∑ i', ∑ j', A i' j' ^ 2))
  | Axis.axis0 => broadcastOp (· / ·) A (fun j : Fin (n+1) => Real.sqrt (∑ i', A i' j ^ 2))
  | Axis.axis1 => broadcastOp (· / ·) A (fun i : Fin (m+1) => Real.sqrt (∑ j', A i j' ^ 2))

/-- norm.add1to0 on a 2-D array, with the array dtype carried explicitly:
`arr = np.asarray(arr)` keeps the caller dtype `dt`; if `0 in arr` then with
`axis=None` the result is `arr + 1` (python int scalar: dtype preserved),
otherwise `zeros = np.any(arr == 0, axis=axis)`, `increment` is an
`np.zeros` float64 array with 1.0 at the flagged slices, and `arr +
increment` broadcasts WITHOUT keepdims (`broadcastOp`) and promotes the
result to float; with no zero present the array is returned unchanged. -/
def add1to0 {m n : ℕ} (dt : DType) (M : Fin (m+1) → Fin (n+1) → ℚ) (a : Axis) :
    Option (DType × (Fin (m+1) → Fin (n+1) → ℚ)) :=
  if ∃ i, ∃ j, M i j = 0 then
    match a with
    | Axis.none => some (dt, fun i j => M i j + 1)
    | Axis.axis0 =>
        (broadcastOp (· + ·) M
          (fun j : Fin (n+1) => if ∃ i, M i j = 0 then (1 : ℚ) else 0)).map
          (fun R => (DType.float, R))
    | Axis.axis1 =>
        (broadcastOp (· + ·) M
          (fun i : Fin (m+1) => if ∃ j, M i j = 0 then (1 : ℚ) else 0)).map
          (fun R => (DType.float, R))
  else
    some (dt, M)

/-- norm.add1to0 on a 1-D array: `len(arr.shape) == 1` short-circuits the
axis dispatch, so any zero present adds 1 everywhere whatever the axis, and
the dtype is always preserved. -/
def add1to0_vec {n : ℕ} (dt : DType) (v : Fin n → ℚ) (_a : Axis) :
    DType × (Fin n → ℚ) :=
  if ∃ i, v i = 0 then (dt, fun i => v i + 1) else (dt, v)

end norm

namespace core

/-- Modelled from the spec: the MIN sentinel of a criteria direction vector,
conventionally `-1`. -/
def MIN : ℚ := -1

/-- Modelled from the spec: the MAX sentinel of a criteria direction vector,
conventionally `1`. -/
def MAX : ℚ := 1

/-- Modelled from the spec: the error raised by the criteria vector
validator when an element is neither MIN nor MAX. -/
inductive CoreError
  | ValueOutOfDomain
deriving DecidableEq

/-- Modelled from the spec: a 1-D numeric array.  The `tag` field is an
identity token: two arrays with the same data but different tags model two
distinct array objects, so returning an array with the caller tag models
returning the very same object (no defensive copy). -/
structure NArr where
  tag : ℕ
  data : List ℚ
deriving DecidableEq

/-- Modelled from the spec: the input of `criteriarr` is either a plain
python sequence or an already-constructed numeric array. -/
inductive CrInput
  | fromList (l : List ℚ)
  | fromArray (a : NArr)
deriving DecidableEq

/-- Modelled from the spec: `np.asarray` coerces a plain sequence to a fresh
array (here carrying the fresh identity token `fresh`) and returns an
already-numeric array as is, same object. -/
def asarray (x : CrInput) (fresh : ℕ) : NArr :=
  match x with
  | CrInput.fromList l => ⟨fresh, l⟩
  | CrInput.fromArray a => a

/-- Modelled from the spec (the defining module `core.py` is not in src/,
only its tests): `criteriarr` coerces the input to a numeric array and
validates that every element equals MIN or MAX; any violation fails the
whole call with ValueOutOfDomain and no partial result, otherwise the
coerced array is returned (the same object when the input was already an
array). -/
def criteriarr (x : CrInput) (fresh : ℕ) : Except CoreError NArr :=
  let arr := asarray x fresh
  if arr.data.all (fun q => decide (q = MIN ∨ q = MAX)) then
    Except.ok arr
  else
    Except.error CoreError.ValueOutOfDomain

/-- Arbitrary nested python value: a number or a sequence of nested values.
This is the input type of the shape predicate `is_mtx`. -/
inductive PyObj
  | num (q : ℚ)
  | seq (l : List PyObj)

/-- Length of a nested value when it is a flat row of numbers, else
`Option.none`. -/
def rowLen (x : PyObj) : Option ℕ :=
  match x with
  | PyObj.num _ => Option.none
  | PyObj.seq l =>
      if l.all (fun e => match e with | PyObj.num _ => true | PyObj.seq _ => false) then
        some l.length
      else
        Option.none

/-- Modelled from the spec (the defining module `core.py` is not in src/,
only its tests): `is_mtx` is true iff the input is two-dimensional and
rectangular - a non-empty sequence of rows, every row a flat sequence of
numbers of one common length - and false on everything else (fewer
dimensions, deeper nesting, zero rows, ragged rows); it never raises. -/
def is_mtx (x : PyObj) : Bool :=
  match x with
  | PyObj.num _ => false
  | PyObj.seq [] => false
  | PyObj.seq (r :: rs) =>
      match rowLen r with
      | Option.none => false
      | some k => rs.all (fun r' => rowLen r' == some k)

/-- Specification-side shape predicate, stated independently of `is_mtx`:
the value is a non-empty list of rows, each row a list of numbers, all rows
of one common length. -/
def IsRectMatrix (x : PyObj) : Prop :=
  ∃ rows : List PyObj, x = PyObj.seq rows ∧ rows ≠ [] ∧
    ∃ k : ℕ, ∀ r ∈ rows, ∃ cells : List PyObj,
      r = PyObj.seq cells ∧ cells.length = k ∧ ∀ c ∈ cells, ∃ q : ℚ, c = PyObj.num q

end core

/-- C4: for every non-empty matrix and every axis, `norm.sum` divides each
entry by the sum of its axis slice, so every slice of the output sums to 1
whenever the corresponding input slice sum is nonzero (axis None treats the
whole matrix as one slice).  The function is total: a zero slice sum raises
no error. -/
theorem sum_slices_sum_to_one {m n : ℕ} (M : Fin (m+1) → Fin (n+1) → ℚ) (a : Axis) :
    (a = Axis.none → norm.totSum M ≠ 0 → ∑ i, ∑ j, norm.sum M a i j = 1) ∧
    (a = Axis.axis0 → ∀ j, norm.colSum M j ≠ 0 → ∑ i, norm.sum M a i j = 1) ∧
    (a = Axis.axis1 → ∀ i, norm.rowSum M i ≠ 0 → ∑ j, norm.sum M a i j = 1) := by
  refine ⟨?_, ?_, ?_⟩
  · rintro rfl h
    simp only [norm.sum, ← Finset.sum_div]
    exact div_self h
  · rintro rfl j h
    simp only [norm.sum, ← Finset.sum_div]
    exact div_self h
  · rintro rfl i h
    simp only [norm.sum, ← Finset.sum_div]
    exact div_self h

/-- Witness for C4 at the docstring example [[1, 2], [3, 4]] with axis 0:
the first column sum is nonzero and the normalized first column sums to 1. -/
theorem sum_slices_sum_to_one_witness :
    norm.colSum (![![(1:ℚ),2],![3,4]] : Fin 2 → Fin 2 → ℚ) 0 ≠ 0 ∧
    ∑ i, norm.sum (![![(1:ℚ),2],![3,4]] : Fin 2 → Fin 2 → ℚ) Axis.axis0 i 0 = 1 := by
  have h : norm.colSum (![![(1:ℚ),2],![3,4]] : Fin 2 → Fin 2 → ℚ) 0 ≠ 0 := by
    norm_num [norm.colSum, Fin.sum_univ_two]
  exact ⟨h, ((sum_slices_sum_to_one (![![(1:ℚ),2],![3,4]]) Axis.axis0).2.1 rfl 0) h⟩

lemma le_colMax {m n : ℕ} (M : Fin (m+1) → Fin (n+1) → ℚ) (i : Fin (m+1)) (j : Fin (n+1)) :
    M i j ≤ norm.colMax M j :=
  Finset.le_sup' (f := fun i' => M i' j) (Finset.mem_univ i)

lemma le_rowMax {m n : ℕ} (M : Fin (m+1) → Fin (n+1) → ℚ) (i : Fin (m+1)) (j : Fin (n+1)) :
    M i j ≤ norm.rowMax M i :=
  Finset.le_sup' (f := fun j' => M i j') (Finset.mem_univ j)

lemma le_totMax {m n : ℕ} (M : Fin (m+1) → Fin (n+1) → ℚ) (i : Fin (m+1)) (j : Fin (n+1)) :
    M i j ≤ norm.totMax M :=
  le_trans (le_rowMax M i j)
    (Finset.le_sup' (f := fun i' => Finset.univ.sup' Finset.univ_nonempty (fun j' => M i' j'))
      (Finset.mem_univ i))

lemma colMax_attained {m n : ℕ} (M : Fin (m+1) → Fin (n+1) → ℚ) (j : Fin (n+1)) :
    ∃ i, norm.colMax M j = M i j := by
  obtain ⟨i0, -, hi0⟩ := Finset.exists_mem_eq_sup' (s := Finset.univ) Finset.univ_nonempty
    (fun i => M i j)
  exact ⟨i0, hi0⟩

lemma rowMax_attained {m n : ℕ} (M : Fin (m+1) → Fin (n+1) → ℚ) (i : Fin (m+1)) :
    ∃ j, norm.rowMax M i = M i j := by
  obtain ⟨j0, -, hj0⟩ := Finset.exists_mem_eq_sup' (s := Finset.univ) Finset.univ_nonempty
    (fun j => M i j)
  exact ⟨j0, hj0⟩

lemma totMax_attained {m n : ℕ} (M : Fin (m+1) → Fin (n+1) → ℚ) :
    ∃ i, ∃ j, norm.totMax M = M i j := by
  obtain ⟨i0, -, hi0⟩ := Finset.exists_mem_eq_sup' (s := Finset.univ) Finset.univ_nonempty
    (fun i => Finset.univ.sup' Finset.univ_nonempty (fun j => M i j))
  obtain ⟨j0, hj0⟩ := rowMax_attained M i0
  exact ⟨i0, j0, by rw [norm.totMax, hi0]; exact hj0⟩

lemma colMin_le {m n : ℕ} (M : Fin (m+1) → Fin (n+1) → ℚ) (i : Fin (m+1)) (j : Fin (n+1)) :
    norm.colMin M j ≤ M i j :=
  Finset.inf'_le (f := fun i' => M i' j) (Finset.mem_univ i)

lemma rowMin_le {m n : ℕ} (M : Fin (m+1) → Fin (n+1) → ℚ) (i : Fin (m+1)) (j : Fin (n+1)) :
    norm.rowMin M i ≤ M i j :=
  Finset.inf'_le (f := fun j' => M i j') (Finset.mem_univ j)

lemma totMin_le {m n : ℕ} (M : Fin (m+1) → Fin (n+1) → ℚ) (i : Fin (m+1)) (j : Fin (n+1)) :
    norm.totMin M ≤ M i j :=
  le_trans
    (Finset.inf'_le (f := fun i' => Finset.univ.inf' Finset.univ_nonempty (fun j' => M i' j'))
      (Finset.mem_univ i))
    (rowMin_le M i j)

lemma colMin_attained {m n : ℕ} (M : Fin (m+1) → Fin (n+1) → ℚ) (j : Fin (n+1)) :
    ∃ i, norm.colMin M j = M i j := by
  obtain ⟨i0, -, hi0⟩ := Finset.exists_mem_eq_inf' (s := Finset.univ) Finset.univ_nonempty
    (fun i => M i j)
  exact ⟨i0, hi0⟩

lemma rowMin_attained {m n : ℕ} (M : Fin (m+1) → Fin (n+1) → ℚ) (i : Fin (m+1)) :
    ∃ j, norm.rowMin M i = M i j := by
  obtain ⟨j0, -, hj0⟩ := Finset.exists_mem_eq_inf' (s := Finset.univ) Finset.univ_nonempty
    (fun j => M i j)
  exact ⟨j0, hj0⟩

lemma totMin_attained {m n : ℕ} (M : Fin (m+1) → Fin (n+1) → ℚ) :
    ∃ i, ∃ j, norm.totMin M = M i j := by
  obtain ⟨i0, -, hi0⟩ := Finset.exists_mem_eq_inf' (s := Finset.univ) Finset.univ_nonempty
    (fun i => Finset.univ.inf' Finset.univ_nonempty (fun j => M i j))
  obtain ⟨j0, hj0⟩ := rowMin_attained M i0
  exact ⟨i0, j0, by rw [norm.totMin, hi0]; exact hj0⟩

lemma le_colMin {m n : ℕ} (M : Fin (m+1) → Fin (n+1) → ℚ) (j : Fin (n+1)) (c : ℚ)
    (h : ∀ i, c ≤ M i j) : c ≤ norm.colMin M j :=
  Finset.le_inf' Finset.univ_nonempty (fun i' => M i' j) (fun i _ => h i)

lemma le_rowMin {m n : ℕ} (M : Fin (m+1) → Fin (n+1) → ℚ) (i : Fin (m+1)) (c : ℚ)
    (h : ∀ j, c ≤ M i j) : c ≤ norm.rowMin M i :=
  Finset.le_inf' Finset.univ_nonempty (fun j' => M i j') (fun j _ => h j)

lemma le_totMin {m n : ℕ} (M : Fin (m+1) → Fin (n+1) → ℚ) (c : ℚ)
    (h : ∀ i j, c ≤ M i j) : c ≤ norm.totMin M :=
  Finset.le_inf' Finset.univ_nonempty _ (fun i _ => le_rowMin M i c (h i))

/-- Counterexample for C3 as stated: on the matrix [[-2, -1]] with axis
None the maximum is -1, and `norm.max` sends the entry -2 to 2, which is
greater than 1. -/
theorem max_le_one_cex :
    norm.max (![![(-2:ℚ),-1]] : Fin 1 → Fin 2 → ℚ) Axis.none 0 0 = 2 ∧
    ¬ norm.max (![![(-2:ℚ),-1]] : Fin 1 → Fin 2 → ℚ) Axis.none 0 0 ≤ 1 := by
  have h : norm.totMax (![![(-2:ℚ),-1]] : Fin 1 → Fin 2 → ℚ) = -1 := by decide
  refine ⟨?_, ?_⟩ <;> simp only [norm.max, h] <;> norm_num

/-- C3 (amended): for every non-empty matrix and every axis, each axis
slice of `norm.max` contains an element exactly equal to 1 provided the
slice maximum is nonzero, and every element of a slice is at most 1
provided that slice maximum is positive. -/
theorem max_normalized {m n : ℕ} (M : Fin (m+1) → Fin (n+1) → ℚ) (a : Axis) :
    (a = Axis.none →
      (0 < norm.totMax M → ∀ i j, norm.max M a i j ≤ 1) ∧
      (norm.totMax M ≠ 0 → ∃ i, ∃ j, norm.max M a i j = 1)) ∧
    (a = Axis.axis0 → ∀ j,
      (0 < norm.colMax M j → ∀ i, norm.max M a i j ≤ 1) ∧
      (norm.colMax M j ≠ 0 → ∃ i, norm.max M a i j = 1)) ∧
    (a = Axis.axis1 → ∀ i,
      (0 < norm.rowMax M i → ∀ j, norm.max M a i j ≤ 1) ∧
      (norm.rowMax M i ≠ 0 → ∃ j, norm.max M a i j = 1)) := by
  refine ⟨?_, ?_, ?_⟩
  · rintro rfl
    refine ⟨fun hpos i j => ?_, fun hne => ?_⟩
    · simp only [norm.max]
      exact (div_le_one hpos).mpr (le_totMax M i j)
    · obtain ⟨i0, j0, h0⟩ := totMax_attained M
      refine ⟨i0, j0, ?_⟩
      simp only [norm.max, ← h0]
      exact div_self hne
  · rintro rfl j
    refine ⟨fun hpos i => ?_, fun hne => ?_⟩
    · simp only [norm.max]
      exact (div_le_one hpos).mpr (le_colMax M i j)
    · obtain ⟨i0, h0⟩ := colMax_attained M j
      refine ⟨i0, ?_⟩
      simp only [norm.max, ← h0]
      exact div_self hne
  · rintro rfl i
    refine ⟨fun hpos j => ?_, fun hne => ?_⟩
    · simp only [norm.max]
      exact (div_le_one hpos).mpr (le_rowMax M i j)
    · obtain ⟨j0, h0⟩ := rowMax_attained M i
      refine ⟨j0, ?_⟩
      simp only [norm.max, ← h0]
      exact div_self hne

/-- Witness for C3 at [[1, 2], [3, 4]] with axis 0: the first column
maximum is positive and the normalized entry (0, 0) is at most 1. -/
theorem max_normalized_witness :
    0 < norm.colMax (![![(1:ℚ),2],![3,4]] : Fin 2 → Fin 2 → ℚ) 0 ∧
    norm.max (![![(1:ℚ),2],![3,4]] : Fin 2 → Fin 2 → ℚ) Axis.axis0 0 0 ≤ 1 :=
  ⟨by decide,
   ((max_normalized (![![(1:ℚ),2],![3,4]]) Axis.axis0).2.1 rfl 0).1 (by decide) 0⟩

/-- C5: for every non-empty matrix and every axis, `norm.push_negatives`
subtracts from every element of an axis slice that slice minimum exactly
when the minimum is negative, making the new slice minimum 0, and leaves
slices with non-negative minimum identical to the input. -/
theorem push_negatives_shifts {m n : ℕ} (M : Fin (m+1) → Fin (n+1) → ℚ) (a : Axis) :
    (a = Axis.none →
      (norm.totMin M < 0 →
        (∀ i j, norm.push_negatives M a i j = M i j - norm.totMin M) ∧
        norm.totMin (norm.push_negatives M a) = 0) ∧
      (0 ≤ norm.totMin M → norm.push_negatives M a = M)) ∧
    (a = Axis.axis0 → ∀ j,
      (norm.colMin M j < 0 →
        (∀ i, norm.push_negatives M a i j = M i j - norm.colMin M j) ∧
        norm.colMin (norm.push_negatives M a) j = 0) ∧
      (0 ≤ norm.colMin M j → ∀ i, norm.push_negatives M a i j = M i j)) ∧
    (a = Axis.axis1 → ∀ i,
      (norm.rowMin M i < 0 →
        (∀ j, norm.push_negatives M a i j = M i j - norm.rowMin M i) ∧
        norm.rowMin (norm.push_negatives M a) i = 0) ∧
      (0 ≤ norm.rowMin M i → ∀ j, norm.push_negatives M a i j = M i j)) := by
  refine ⟨?_, ?_, ?_⟩
  · rintro rfl
    refine ⟨fun hneg => ?_, fun hpos => ?_⟩
    · have hval : ∀ i j, norm.push_negatives M Axis.none i j = M i j - norm.totMin M := by
        intro i j
        simp only [norm.push_negatives, if_pos hneg, one_mul]
      refine ⟨hval, le_antisymm ?_ ?_⟩
      · obtain ⟨i0, j0, h0⟩ := totMin_attained M
        calc norm.totMin (norm.push_negatives M Axis.none)
            ≤ norm.push_negatives M Axis.none i0 j0 := totMin_le _ i0 j0
          _ = 0 := by rw [hval, ← h0, sub_self]
      · refine le_totMin _ 0 (fun i j => ?_)
        rw [hval]
        have := totMin_le M i j
        linarith
    · funext i j
      simp only [norm.push_negatives, if_neg (not_lt.mpr hpos), zero_mul, sub_zero]
  · rintro rfl j
    refine ⟨fun hneg => ?_, fun hpos i => ?_⟩
    · have hval : ∀ i, norm.push_negatives M Axis.axis0 i j = M i j - norm.colMin M j := by
        intro i
        simp only [norm.push_negatives, if_pos hneg, one_mul]
      refine ⟨hval, le_antisymm ?_ ?_⟩
      · obtain ⟨i0, h0⟩ := colMin_attained M j
        calc norm.colMin (norm.push_negatives M Axis.axis0) j
            ≤ norm.push_negatives M Axis.axis0 i0 j := colMin_le _ i0 j
          _ = 0 := by rw [hval, ← h0, sub_self]
      · refine le_colMin _ j 0 (fun i => ?_)
        rw [hval]
        have := colMin_le M i j
        linarith
    · simp only [norm.push_negatives, if_neg (not_lt.mpr hpos), zero_mul, sub_zero]
  · rintro rfl i
    refine ⟨fun hneg => ?_, fun hpos j => ?_⟩
    · have hval : ∀ j, norm.push_negatives M Axis.axis1 i j = M i j - norm.rowMin M i := by
        intro j
        simp only [norm.push_negatives, if_pos hneg, one_mul]
      refine ⟨hval, le_antisymm ?_ ?_⟩
      · obtain ⟨j0, h0⟩ := rowMin_attained M i
        calc norm.rowMin (norm.push_negatives M Axis.axis1) i
            ≤ norm.push_negatives M Axis.axis1 i j0 := rowMin_le _ i j0
          _ = 0 := by rw [hval, ← h0, sub_self]
      · refine le_rowMin _ i 0 (fun j => ?_)
        rw [hval]
        have := rowMin_le M i j
        linarith
    · simp only [norm.push_negatives, if_neg (not_lt.mpr hpos), zero_mul, sub_zero]

/-- Witness for C5 at the docstring example [[-1, 2], [3, 4]] with axis 0:
the first column minimum is negative and entry (1, 0) is shifted by it. -/
theorem push_negatives_shifts_witness :
    norm.colMin (![![(-1:ℚ),2],![3,4]] : Fin 2 → Fin 2 → ℚ) 0 < 0 ∧
    norm.push_negatives (![![(-1:ℚ),2],![3,4]] : Fin 2 → Fin 2 → ℚ) Axis.axis0 1 0
      = (![![(-1:ℚ),2],![3,4]] : Fin 2 → Fin 2 → ℚ) 1 0
        - norm.colMin (![![(-1:ℚ),2],![3,4]] : Fin 2 → Fin 2 → ℚ) 0 :=
  ⟨by decide,
   (((push_negatives_shifts (![![(-1:ℚ),2],![3,4]]) Axis.axis0).2.1 rfl 0).1 (by decide)).1 1⟩

lemma den_one_sub {p q : ℚ} (hp : p.den = 1) (hq : q.den = 1) : (p - q).den = 1 := by
  rw [← Rat.coe_int_num_of_den_eq_one hp, ← Rat.coe_int_num_of_den_eq_one hq,
    ← Int.cast_sub, Rat.den_intCast]

/-- C6: `norm.push_negatives` maps integer-valued matrices to
integer-valued matrices (denominator 1 in the exact-arithmetic embedding):
the only arithmetic on the no-coercion path is subtracting an attained
minimum, which never leaves the integers. -/
theorem push_negatives_preserves_int {m n : ℕ} (M : Fin (m+1) → Fin (n+1) → ℚ) (a : Axis)
    (h : ∀ i j, (M i j).den = 1) :
    ∀ i j, (norm.push_negatives M a i j).den = 1 := by
  intro i j
  cases a
  case none =>
    show ((M i j) - (if norm.totMin M < 0 then (1:ℚ) else 0) * norm.totMin M).den = 1
    obtain ⟨i0, j0, h0⟩ := totMin_attained M
    split
    · rw [one_mul]
      exact den_one_sub (h i j) (h0 ▸ h i0 j0)
    · rw [zero_mul, sub_zero]
      exact h i j
  case axis0 =>
    show ((M i j) - (if norm.colMin M j < 0 then (1:ℚ) else 0) * norm.colMin M j).den = 1
    obtain ⟨i0, h0⟩ := colMin_attained M j
    split
    · rw [one_mul]
      exact den_one_sub (h i j) (h0 ▸ h i0 j)
    · rw [zero_mul, sub_zero]
      exact h i j
  case axis1 =>
    show ((M i j) - (if norm.rowMin M i < 0 then (1:ℚ) else 0) * norm.rowMin M i).den = 1
    obtain ⟨j0, h0⟩ := rowMin_attained M i
    split
    · rw [one_mul]
      exact den_one_sub (h i j) (h0 ▸ h i j0)
    · rw [zero_mul, sub_zero]
      exact h i j

/-- Witness for C6 at the integer matrix [[-1, 2], [3, 4]] with axis 0. -/
theorem push_negatives_preserves_int_witness :
    (norm.push_negatives (![![(-1:ℚ),2],![3,4]] : Fin 2 → Fin 2 → ℚ) Axis.axis0 0 0).den = 1 :=
  push_negatives_preserves_int (![![(-1:ℚ),2],![3,4]]) Axis.axis0 (by decide) 0 0

/-- C10: dtype flow of `norm.add1to0` on a 2-D array.  When a zero is
present, the axis 0 path always returns a float result and the axis 1 path
returns a float result whenever it returns at all (the per-slice increment
array is an `np.zeros` float64 array, promoting the sum), while the axis
None path adds a python int scalar and keeps the input dtype, and the
no-zero path returns the input unchanged. -/
theorem add1to0_dtype_flow {m n : ℕ} (dt : DType) (M : Fin (m+1) → Fin (n+1) → ℚ) :
    ((∃ i, ∃ j, M i j = 0) →
      (∃ R, norm.add1to0 dt M Axis.axis0 = some (DType.float, R)) ∧
      (∀ dt' R, norm.add1to0 dt M Axis.axis1 = some (dt', R) → dt' = DType.float) ∧
      norm.add1to0 dt M Axis.none = some (dt, fun i j => M i j + 1)) ∧
    (¬ (∃ i, ∃ j, M i j = 0) → ∀ a, norm.add1to0 dt M a = some (dt, M)) := by
  constructor
  · intro hz
    refine ⟨?_, ?_, ?_⟩
    · simp only [norm.add1to0, if_pos hz, broadcastOp]
      rw [dif_pos trivial, Option.map_some']
      exact ⟨_, rfl⟩
    · intro dt' R h
      simp only [norm.add1to0, if_pos hz, broadcastOp] at h
      split at h
      · simp only [Option.map_some'] at h
        exact (Prod.mk.injEq _ _ _ _ ▸ (Option.some.injEq _ _ ▸ h)).1.symm ▸ rfl
      · split at h
        · simp only [Option.map_some'] at h
          cases h
          rfl
        · simp only [Option.map_none'] at h
          cases h
    · simp only [norm.add1to0, if_pos hz]
  · intro hz a
    simp only [norm.add1to0, if_neg hz]

/-- Witness for C10 at [[0, 1], [2, 3]]: the axis None path preserves the
int dtype and adds 1 everywhere. -/
theorem add1to0_dtype_flow_witness :
    norm.add1to0 DType.int (![![(0:ℚ),1],![2,3]] : Fin 2 → Fin 2 → ℚ) Axis.none
      = some (DType.int, fun i j => (![![(0:ℚ),1],![2,3]] : Fin 2 → Fin 2 → ℚ) i j + 1) :=
  ((add1to0_dtype_flow DType.int (![![(0:ℚ),1],![2,3]])).1 (by decide)).2.2

/-- C2: the claim fails in the code.  On [[0, 1], [2, 3]] with axis 1 the
per-row zero flags are broadcast against the last axis, so column 0 (the
index of the flagged row) is incremented instead of row 0: the code yields
[[1, 1], [3, 3]] where the claim requires [[1, 2], [2, 3]] (entries (0, 1)
and (1, 0) read 1 and 3 instead of 2 and 2), and on a non-square 2 x 3
matrix the addition raises (Option.none). -/
theorem add1to0_rows_bug :
    (norm.add1to0 DType.int (![![(0:ℚ),1],![2,3]] : Fin 2 → Fin 2 → ℚ) Axis.axis1).map
        (fun R => (R.1, R.2 0 1, R.2 1 0))
      = some (DType.float, 1, 3) ∧
    ((1:ℚ), (3:ℚ)) ≠ ((2:ℚ), (2:ℚ)) ∧
    norm.add1to0 DType.int (![![(0:ℚ),1,2],![3,4,5]] : Fin 2 → Fin 3 → ℚ) Axis.axis1
      = Option.none := by
  refine ⟨?_, ?_, ?_⟩
  · have hz : ∃ i, ∃ j, (![![(0:ℚ),1],![2,3]] : Fin 2 → Fin 2 → ℚ) i j = 0 := by decide
    simp only [norm.add1to0, if_pos hz, broadcastOp]
    rw [dif_pos trivial, Option.map_some', Option.map_some']
    have h0 : (∃ j', (![![(0:ℚ),1],![2,3]] : Fin 2 → Fin 2 → ℚ) 0 j' = 0) := by decide
    have h1 : ¬ (∃ j', (![![(0:ℚ),1],![2,3]] : Fin 2 → Fin 2 → ℚ) 1 j' = 0) := by decide
    simp only [Option.some.injEq, Prod.mk.injEq]
    refine ⟨trivial, ?_, ?_⟩
    · show (![![(0:ℚ),1],![2,3]] : Fin 2 → Fin 2 → ℚ) 0 1
        + (if ∃ j', (![![(0:ℚ),1],![2,3]] : Fin 2 → Fin 2 → ℚ) 1 j' = 0 then (1:ℚ) else 0) = 1
      rw [if_neg h1]
      norm_num
    · show (![![(0:ℚ),1],![2,3]] : Fin 2 → Fin 2 → ℚ) 1 0
        + (if ∃ j', (![![(0:ℚ),1],![2,3]] : Fin 2 → Fin 2 → ℚ) 0 j' = 0 then (1:ℚ) else 0) = 3
      rw [if_pos h0]
      norm_num
  · intro h
    have := congrArg Prod.fst h
    norm_num at this
  · have hz : ∃ i, ∃ j, (![![(0:ℚ),1,2],![3,4,5]] : Fin 2 → Fin 3 → ℚ) i j = 0 := by decide
    simp only [norm.add1to0, if_pos hz, broadcastOp]
    rw [dif_neg (by norm_num), dif_neg (by norm_num)]
    rfl

/-- C1: the claim fails in the code.  `linalg.norm` is taken without
keepdims, so with axis 1 the row-norm array is broadcast against the last
axis and entry (i, j) is divided by the norm of row j: on the docstring
example [[1, 2], [3, 4]] the squared outputs of row 0 sum to 9/25 rather
than 1, and on a non-square 2 x 3 matrix the division raises
(Option.none). -/
theorem vector_rows_bug :
    ((norm.vector (![![(1:ℚ),2],![3,4]] : Fin 2 → Fin 2 → ℚ) Axis.axis1).map
        (fun V => ∑ j, V 0 j ^ 2) = some (9/25)) ∧
    ((9:ℝ)/25 ≠ 1) ∧
    (norm.vector (![![(1:ℚ),2,3],![4,5,6]] : Fin 2 → Fin 3 → ℚ) Axis.axis1 = Option.none) := by
  refine ⟨?_, by norm_num, ?_⟩
  · simp only [norm.vector, broadcastOp]
    rw [dif_pos trivial, Option.map_some']
    have h5 : ∑ j' : Fin 2, (((![![(1:ℚ),2],![3,4]] : Fin 2 → Fin 2 → ℚ) 0 j' : ℝ))^2 = 5 := by
      simp [Fin.sum_univ_two]
      norm_num
    have h25 : ∑ j' : Fin 2, (((![![(1:ℚ),2],![3,4]] : Fin 2 → Fin 2 → ℚ) 1 j' : ℝ))^2 = 25 := by
      simp [Fin.sum_univ_two]
      norm_num
    refine congrArg some ?_
    show (∑ j : Fin 2,
        ((((![![(1:ℚ),2],![3,4]] : Fin 2 → Fin 2 → ℚ) 0 j : ℝ))
          / Real.sqrt (∑ j' : Fin 2,
              (((![![(1:ℚ),2],![3,4]] : Fin 2 → Fin 2 → ℚ) j j' : ℝ))^2))^2) = 9/25
    rw [Fin.sum_univ_two]
    rw [h5, h25]
    rw [div_pow, div_pow, Real.sq_sqrt (by norm_num), Real.sq_sqrt (by norm_num)]
    norm_num
  · simp only [norm.vector, broadcastOp]
    rw [dif_neg (by norm_num), dif_neg (by norm_num)]

/-- C7: `core.criteriarr` on a plain sequence fails with ValueOutOfDomain
exactly when some element differs from both MIN and MAX, and otherwise
returns a numeric array with exactly the input values (and no partial
result is produced on failure). -/
theorem criteriarr_validates (l : List ℚ) (t : ℕ) :
    (core.criteriarr (core.CrInput.fromList l) t = Except.error core.CoreError.ValueOutOfDomain
      ↔ ∃ q ∈ l, q ≠ core.MIN ∧ q ≠ core.MAX) ∧
    ((∀ q ∈ l, q = core.MIN ∨ q = core.MAX) →
      core.criteriarr (core.CrInput.fromList l) t = Except.ok ⟨t, l⟩) := by
  have hall : (l.all (fun q => decide (q = core.MIN ∨ q = core.MAX)) = true)
      ↔ ∀ q ∈ l, q = core.MIN ∨ q = core.MAX := by
    simp [List.all_eq_true]
  by_cases hc : ∀ q ∈ l, q = core.MIN ∨ q = core.MAX
  · have hok : core.criteriarr (core.CrInput.fromList l) t = Except.ok ⟨t, l⟩ := by
      simp only [core.criteriarr, core.asarray, if_pos (hall.mpr hc)]
    refine ⟨?_, fun _ => hok⟩
    rw [hok]
    constructor
    · intro h
      exact absurd h (by simp)
    · rintro ⟨q, hq, hmin, hmax⟩
      rcases hc q hq with h | h
      · exact (hmin h).elim
      · exact (hmax h).elim
  · have herr : core.criteriarr (core.CrInput.fromList l) t
        = Except.error core.CoreError.ValueOutOfDomain := by
      simp only [core.criteriarr, core.asarray, if_neg (fun h => hc (hall.mp h))]
    refine ⟨?_, fun h => (hc h).elim⟩
    rw [herr]
    push_neg at hc
    obtain ⟨q, hq, hqne⟩ := hc
    exact iff_of_true rfl ⟨q, hq, hqne⟩

/-- Witness for C7: appending 2 to a MIN/MAX sequence raises
ValueOutOfDomain. -/
theorem criteriarr_validates_witness :
    core.criteriarr (core.CrInput.fromList [-1, 1, 2]) 0
      = Except.error core.CoreError.ValueOutOfDomain :=
  (criteriarr_validates [-1, 1, 2] 0).1.mpr ⟨2, by decide, by decide, by decide⟩

/-- C8: when the input is already a numeric array with all elements in
MIN/MAX, `core.criteriarr` returns the very same array (same identity
token, no defensive copy). -/
theorem criteriarr_array_identity (a : core.NArr) (t : ℕ)
    (h : ∀ q ∈ a.data, q = core.MIN ∨ q = core.MAX) :
    core.criteriarr (core.CrInput.fromArray a) t = Except.ok a := by
  have hall : a.data.all (fun q => decide (q = core.MIN ∨ q = core.MAX)) = true := by
    simp [List.all_eq_true]
    exact h
  simp only [core.criteriarr, core.asarray, if_pos hall]

/-- Witness for C8 at the array tagged 7 with data [1, -1]. -/
theorem criteriarr_array_identity_witness :
    core.criteriarr (core.CrInput.fromArray ⟨7, [1, -1]⟩) 0 = Except.ok ⟨7, [1, -1]⟩ :=
  criteriarr_array_identity ⟨7, [1, -1]⟩ 0 (by decide)

lemma rowLen_eq_some (r : core.PyObj) (k : ℕ) :
    core.rowLen r = some k ↔
      ∃ cells, r = core.PyObj.seq cells ∧ cells.length = k ∧
        ∀ c ∈ cells, ∃ q : ℚ, c = core.PyObj.num q := by
  cases r with
  | num q => simp [core.rowLen]
  | seq l =>
      simp only [core.rowLen]
      split
      next hall =>
        constructor
        · intro h
          injection h with h
          refine ⟨l, rfl, h, fun c hc => ?_⟩
          have hc' := List.all_eq_true.mp hall c hc
          cases c with
          | num q => exact ⟨q, rfl⟩
          | seq l2 => simp at hc'
        · rintro ⟨cells, heq, hlen, -⟩
          injection heq with heq
          subst heq
          exact congrArg some hlen
      next hall =>
        constructor
        · intro h
          cases h
        · rintro ⟨cells, heq, hlen, hnum⟩
          injection heq with heq
          subst heq
          refine absurd (List.all_eq_true.mpr fun c hc => ?_) hall
          obtain ⟨q, rfl⟩ := hnum c hc
          rfl

/-- C9: `core.is_mtx` is true exactly on two-dimensional rectangular
nested input and false on everything else, never raising; in particular it
is true on [[1, 2], [1, 2]] and [[1], [1]] and false on [[1, 2], [1]],
[1], [1, 2, 3], [] and a bare number. -/
theorem is_mtx_spec :
    (∀ x : core.PyObj, core.is_mtx x = true ↔ core.IsRectMatrix x) ∧
    core.is_mtx (core.PyObj.seq [core.PyObj.seq [core.PyObj.num 1, core.PyObj.num 2],
      core.PyObj.seq [core.PyObj.num 1, core.PyObj.num 2]]) = true ∧
    core.is_mtx (core.PyObj.seq [core.PyObj.seq [core.PyObj.num 1],
      core.PyObj.seq [core.PyObj.num 1]]) = true ∧
    core.is_mtx (core.PyObj.seq [core.PyObj.seq [core.PyObj.num 1, core.PyObj.num 2],
      core.PyObj.seq [core.PyObj.num 1]]) = false ∧
    core.is_mtx (core.PyObj.seq [core.PyObj.num 1]) = false ∧
    core.is_mtx (core.PyObj.seq [core.PyObj.num 1, core.PyObj.num 2, core.PyObj.num 3]) = false ∧
    core.is_mtx (core.PyObj.seq []) = false ∧
    core.is_mtx (core.PyObj.num 5) = false := by
  refine ⟨fun x => ?_, by decide, by decide, by decide, by decide, by decide, by decide, by decide⟩
  cases x with
  | num q => simp [core.is_mtx, core.IsRectMatrix]
  | seq rows =>
      cases rows with
      | nil =>
          simp only [core.is_mtx]
          constructor
          · intro h
            cases h
          · rintro ⟨rows2, heq, hne, -⟩
            injection heq with heq
            exact (hne heq.symm).elim
      | cons r rs =>
          simp only [core.is_mtx]
          cases hr : core.rowLen r with
          | none =>
              constructor
              · intro h
                cases h
              · rintro ⟨rows2, heq, -, k, hall2⟩
                injection heq with heq
                subst heq
                have hk : core.rowLen r = some k :=
                  (rowLen_eq_some r k).mpr (hall2 r (List.mem_cons_self r rs))
                rw [hr] at hk
                cases hk
          | some k =>
              rw [List.all_eq_true]
              constructor
              · intro h
                refine ⟨r :: rs, rfl, by simp, k, fun r' hr' => ?_⟩
                rcases List.mem_cons.mp hr' with rfl | hmem
                · exact (rowLen_eq_some r' k).mp hr
                · have hb := h r' hmem
                  rw [beq_iff_eq] at hb
                  exact (rowLen_eq_some r' k).mp hb
              · rintro ⟨rows2, heq, -, k', hall2⟩
                injection heq with heq
                subst heq
                have hk : core.rowLen r = some k' :=
                  (rowLen_eq_some r k').mpr (hall2 r (List.mem_cons_self r rs))
                rw [hr] at hk
                injection hk with hk
                intro r' hmem
                rw [beq_iff_eq, hk]
                exact (rowLen_eq_some r' k').mpr (hall2 r' (List.mem_cons.mpr (Or.inr hmem)))
